import Mathlib

/-!
Verification development for the human-behavior synthesis engine of
`stealth.py` (SMMProject).  Python floats are modelled as rationals;
calls to `random.*` and to the transcendental functions `math.sin`,
`math.cos`, `math.sqrt`, `math.atan2` are modelled as explicit oracle
inputs (structures of "draw" values), so every definition is a pure,
computable function of the program state and of those draws.
-/

namespace SMM

/-- Python's `int()` applied to a float truncates toward zero:
`int(3.7) = 3`, `int(-3.7) = -3`.  On a rational `num/den` (with
`den > 0`) this is truncating integer division of `num` by `den`. -/
def pyInt (q : ℚ) : ℤ := q.num.tdiv q.den

theorem pyInt_eq_floor (q : ℚ) (h : 0 ≤ q) : pyInt q = ⌊q⌋ := by
  rw [Rat.floor_def, pyInt]
  exact Int.tdiv_eq_ediv (Rat.num_nonneg.mpr h) (Int.ofNat_nonneg q.den)

theorem pyInt_eq_ceil (q : ℚ) (h : q < 0) : pyInt q = ⌈q⌉ := by
  have hnum : (-q).num = -q.num := Rat.neg_num q ▸ rfl
  have hden : (-q).den = q.den := Rat.neg_den q ▸ rfl
  have h1 : pyInt q = -pyInt (-q) := by
    simp [pyInt, hnum, hden, Int.neg_tdiv]
  have h2 : pyInt (-q) = ⌊-q⌋ := pyInt_eq_floor _ (by linarith)
  rw [h1, h2, ← Int.ceil_neg, neg_neg]

theorem pyInt_intCast (n : ℤ) : pyInt (n : ℚ) = n := by
  simp [pyInt, Rat.num_intCast, Rat.den_intCast]

/-- Truncation toward zero moves by strictly less than one unit. -/
theorem pyInt_lt_add_one (q : ℚ) : (pyInt q : ℚ) < q + 1 := by
  rcases le_or_lt 0 q with h | h
  · rw [pyInt_eq_floor q h]
    calc ((⌊q⌋ : ℤ) : ℚ) ≤ q := Int.floor_le q
    _ < q + 1 := by linarith
  · rw [pyInt_eq_ceil q h]
    exact Int.ceil_lt_add_one q

theorem sub_one_lt_pyInt (q : ℚ) : q - 1 < (pyInt q : ℚ) := by
  rcases le_or_lt 0 q with h | h
  · rw [pyInt_eq_floor q h]
    exact Int.sub_one_lt_floor q
  · rw [pyInt_eq_ceil q h]
    have := Int.le_ceil q
    linarith

/-! ## `HumanBehavior` (stealth.py lines 43–114) -/

/-- The five personality traits (`HumanBehavior.__init__`'s
`self.personality` dict). -/
structure Personality where
  speed : ℚ
  accuracy : ℚ
  patience : ℚ
  curiosity : ℚ
  focus : ℚ
deriving DecidableEq, Repr

/-- The declared sampling bounds of the five traits. -/
def Personality.inBounds (p : Personality) : Prop :=
  0.7 ≤ p.speed ∧ p.speed ≤ 1.3 ∧
  0.85 ≤ p.accuracy ∧ p.accuracy ≤ 0.98 ∧
  0.6 ≤ p.patience ∧ p.patience ≤ 1.4 ∧
  0.3 ≤ p.curiosity ∧ p.curiosity ≤ 0.8 ∧
  0.7 ≤ p.focus ∧ p.focus ≤ 1.0

/-- Outcomes of the five `random.uniform` draws performed by
`HumanBehavior.__init__`. -/
structure PersonalityDraws where
  speed : ℚ
  accuracy : ℚ
  patience : ℚ
  curiosity : ℚ
  focus : ℚ

/-- `random.uniform(a, b)` always returns a value in `[a, b]`; these are
the ranges used by `HumanBehavior.__init__`. -/
def PersonalityDraws.inRanges (d : PersonalityDraws) : Prop :=
  0.7 ≤ d.speed ∧ d.speed ≤ 1.3 ∧
  0.85 ≤ d.accuracy ∧ d.accuracy ≤ 0.98 ∧
  0.6 ≤ d.patience ∧ d.patience ≤ 1.4 ∧
  0.3 ≤ d.curiosity ∧ d.curiosity ≤ 0.8 ∧
  0.7 ≤ d.focus ∧ d.focus ≤ 1.0

/-- Session-local behavioral state.  The wall-clock `session_start` is
not stored explicitly: every caller of `update_fatigue` passes the
elapsed session time in minutes (`(datetime.now() - session_start)
.total_seconds() / 60`), which is nonnegative and non-decreasing over a
session.  The mouse history and `last_action_time` fields play no role
in any computation modelled here. -/
structure HumanBehavior where
  fatigue : ℚ
  actionsCount : ℕ
  personality : Personality
deriving DecidableEq

/-- `HumanBehavior.__init__`: fatigue 0, zero actions, freshly drawn
personality. -/
def initBehavior (d : PersonalityDraws) : HumanBehavior :=
  { fatigue := 0
    actionsCount := 0
    personality := ⟨d.speed, d.accuracy, d.patience, d.curiosity, d.focus⟩ }

/-- `HumanBehavior.update_fatigue` (lines 65–74): recompute fatigue from
the elapsed session minutes and the current action count, then increment
the count.  Note the count used in the formula is the value *before* the
increment. -/
def updateFatigue (sessionDuration : ℚ) (b : HumanBehavior) : HumanBehavior :=
  let timeFatigue := min (sessionDuration / 60) 0.5
  let actionFatigue := min ((b.actionsCount : ℚ) / 100) 0.3
  { b with
    fatigue := min (timeFatigue + actionFatigue) 0.8
    actionsCount := b.actionsCount + 1 }

/-- `k` successive `update_fatigue` calls; `m i` is the elapsed session
time (minutes) observed by the `i`-th call. -/
def recordActions (m : ℕ → ℚ) (b : HumanBehavior) : ℕ → HumanBehavior
  | 0 => b
  | k + 1 => updateFatigue (m k) (recordActions m b k)

/-- Outcomes of the random draws in `get_adjusted_delay`:
`gauss` is the `random.gauss(mean, std)` draw (its support is all of ℝ,
so it is unconstrained), `thinkRoll` the `random.random()` roll and
`thinkMul` the `random.uniform(2, 4)` "thinking pause" multiplier. -/
structure DelayDraws where
  gauss : ℚ
  thinkRoll : ℚ
  thinkMul : ℚ

/-- `HumanBehavior.get_adjusted_delay` (lines 76–93). -/
def getAdjustedDelay (b : HumanBehavior) (r : DelayDraws)
    (baseMin baseMax : ℚ) : ℚ :=
  let delay := r.gauss
  let delay := delay * b.personality.speed
  let delay := delay * (1 + b.fatigue * 0.5)
  let delay := if r.thinkRoll < 0.05 then delay * r.thinkMul else delay
  max (baseMin * 0.5) (min (baseMax * 2) delay)

/-! ## Session limits and URL processing (`StealthBot`, lines 589–958) -/

/-- The `stats` dict fields consulted by `_check_session_limits`:
`stats['total']` and `stats['session_start']` (a timestamp in minutes,
`none` before `start()` runs). -/
structure SessionStats where
  total : ℕ
  sessionStart : Option ℚ
deriving DecidableEq, Repr

/-- The `StealthConfig` fields consulted by `_check_session_limits`. -/
structure SessionConfig where
  maxSessionDurationMinutes : ℚ
  maxActionsPerSession : ℕ

/-- `StealthBot._check_session_limits` (lines 653–665): `false` means a
limit is reached.  `now` is the current wall clock in minutes. -/
def checkSessionLimits (cfg : SessionConfig) (now : ℚ)
    (st : SessionStats) : Bool :=
  match st.sessionStart with
  | some t0 =>
    if cfg.maxSessionDurationMinutes ≤ now - t0 then false
    else if cfg.maxActionsPerSession ≤ st.total then false
    else true
  | none =>
    if cfg.maxActionsPerSession ≤ st.total then false
    else true

/-- URL classification of `StealthBot.process_url` (lines 918–928):
contains `/reel/`, contains `/p/`, or neither. -/
inductive UrlKind
  | reel
  | post
  | unknown
deriving DecidableEq

/-- `process_reel` / `process_post` both re-check the session limits and
only then increment `stats['total']` and act on the page; unknown URLs
are skipped.  Returns whether a URL-processing action was dispatched,
with the updated stats. -/
def processUrl (cfg : SessionConfig) (now : ℚ) (u : UrlKind)
    (st : SessionStats) : Bool × SessionStats :=
  match u with
  | .unknown => (false, st)
  | _ =>
    if checkSessionLimits cfg now st then
      (true, { st with total := st.total + 1 })
    else (false, st)

/-- `StealthBot.process_urls` (lines 930–958): before each URL the limits
are checked and the loop breaks on failure; otherwise the URL is
processed (which re-checks the limits at a later time).  `outerT i` /
`innerT i` are the wall-clock times of the loop check and of the inner
check for the `i`-th URL.  Returns the indices of the URLs for which an
action was dispatched, with the final stats. -/
def processUrls (cfg : SessionConfig) (outerT innerT : ℕ → ℚ) :
    List UrlKind → ℕ → SessionStats → List ℕ × SessionStats
  | [], _, st => ([], st)
  | u :: rest, i, st =>
    if checkSessionLimits cfg (outerT i) st then
      let step := processUrl cfg (innerT i) u st
      let cont := processUrls cfg outerT innerT rest (i + 1) step.2
      ((if step.1 then [i] else []) ++ cont.1, cont.2)
    else ([], st)

/-! ## Persistence (`_load_state` / `_save_state`, lines 624–644) -/

/-- The record written by `StealthBot._save_state`: the behavior's
personality, the current timestamp, and the whole `stats` dict. -/
structure BotState where
  personality : Personality
  lastSession : ℚ
  stats : SessionStats
deriving DecidableEq

/-- `StealthBot._save_state` (lines 636–644). -/
def saveStateRecord (now : ℚ) (behavior : HumanBehavior)
    (stats : SessionStats) : BotState :=
  ⟨behavior.personality, now, stats⟩

/-- The JSON keys of the record written by `_save_state`. -/
def savedStateKeys : List String := ["personality", "last_session", "stats"]

/-- A successfully parsed `bot_state.json` record as read back by
`_load_state`; the `personality` key may be missing. -/
structure LoadedRecord where
  personality? : Option Personality

/-- The readable content of a saved `BotState`: `_load_state` only ever
looks at the `personality` key. -/
def recordOfSaved (bs : BotState) : LoadedRecord := ⟨some bs.personality⟩

/-- Possible states of the persisted-state file on disk. -/
inductive StateFile
  | absent
  | malformed
  | parsed (r : LoadedRecord)

/-- The `os.path.exists` guard plus `json.load`: absent yields nothing,
malformed content raises, well-formed content parses. -/
def readStateFile : StateFile → Except String (Option LoadedRecord)
  | .absent => .ok none
  | .malformed => .error "json decode error"
  | .parsed r => .ok (some r)

/-- Applying a parsed record: restore the personality if the key is
present (`_load_state` lines 630–632). -/
def applyLoadedRecord (r : LoadedRecord) (b : HumanBehavior) : HumanBehavior :=
  match r.personality? with
  | some p => { b with personality := p }
  | none => b

/-- `StealthBot._load_state` (lines 624–634): the whole read is wrapped
in `try: ... except: pass`, so a raised parse error leaves the behavior
untouched. -/
def loadState (f : StateFile) (b : HumanBehavior) : HumanBehavior :=
  match readStateFile f with
  | .ok none => b
  | .ok (some r) => applyLoadedRecord r b
  | .error _ => b

/-- `StealthBot.__init__` restricted to the behavioral state: sample a
fresh personality, then overlay whatever `_load_state` recovers. -/
def mkBehavior (f : StateFile) (d : PersonalityDraws) : HumanBehavior :=
  loadState f (initBehavior d)

/-! ## `AdvancedMouseSimulator` (lines 117–310)

Coordinates are integer pixel pairs (`current_pos` and all targets are
int tuples); intermediate control points and spline evaluation use
rationals standing in for floats.  The random draws and transcendental
evaluations of one `move_to` call are collected in `MoveDraws`:
`ctrlDevSin i` stands for `math.sin(progress * math.pi)` of the `i`-th
control point, `ctrlAngleCos i` / `ctrlAngleSin i` for the cosine/sine
of its `random.uniform(-pi/3, pi/3)` angle, `dirCos` / `dirSin` for the
cosine/sine of `math.atan2(dy, dx)`, `overshootDist` for the
`random.uniform(5, 25)` draw, `mistakeRoll` for the boolean outcome of
`behavior.should_make_mistake()`, and `noiseX i` / `noiseY i` for the
`_perlin_noise` values of sample `i` (a sum of three sine octaves, hence
bounded by `1.75` in absolute value). -/

/-- Random draws and transcendental values consumed by one `move_to`. -/
structure MoveDraws where
  ctrlDevSin : ℕ → ℚ
  ctrlAngleCos : ℕ → ℚ
  ctrlAngleSin : ℕ → ℚ
  dirCos : ℚ
  dirSin : ℚ
  overshootDist : ℚ
  mistakeRoll : Bool
  noiseX : ℕ → ℚ
  noiseY : ℕ → ℚ

/-- `AdvancedMouseSimulator._generate_control_points` (lines 135–178).
`dist` is the (real-valued) Euclidean distance `math.sqrt(dx*dx+dy*dy)`
between `start` and `target`, supplied as an input. -/
def generateControlPoints (r : MoveDraws) (dist : ℚ) (start target : ℤ × ℤ)
    (overshoot : Bool) : List (ℚ × ℚ) :=
  let dx : ℚ := (target.1 : ℚ) - (start.1 : ℚ)
  let dy : ℚ := (target.2 : ℚ) - (start.2 : ℚ)
  let numControls : ℕ := (max 2 (pyInt (dist / 100))).toNat
  let interior : List (ℚ × ℚ) := (List.range numControls).map (fun (i : ℕ) =>
    let progress : ℚ := ((i : ℚ) + 1) / ((numControls : ℚ) + 1)
    let deviation : ℚ := r.ctrlDevSin i * dist * 0.15
    ((start.1 : ℚ) + dx * progress + r.ctrlAngleCos i * deviation,
     (start.2 : ℚ) + dy * progress + r.ctrlAngleSin i * deviation))
  let withOvershoot : List (ℚ × ℚ) :=
    if overshoot then
      (((start.1 : ℚ), (start.2 : ℚ)) :: interior) ++
        [((target.1 : ℚ) + r.dirCos * r.overshootDist,
          (target.2 : ℚ) + r.dirSin * r.overshootDist)]
    else ((start.1 : ℚ), (start.2 : ℚ)) :: interior
  withOvershoot ++ [((target.1 : ℚ), (target.2 : ℚ))]

/-- One Catmull-Rom cubic evaluation (the body of the inner loop of
`_catmull_rom_spline`, lines 201–216), already truncated to ints. -/
def crPoint (p0 p1 p2 p3 : ℚ × ℚ) (t : ℚ) : ℤ × ℤ :=
  (pyInt (0.5 * (2 * p1.1 + (-p0.1 + p2.1) * t +
      (2 * p0.1 - 5 * p1.1 + 4 * p2.1 - p3.1) * (t * t) +
      (-p0.1 + 3 * p1.1 - 3 * p2.1 + p3.1) * (t * t * t))),
   pyInt (0.5 * (2 * p1.2 + (-p0.2 + p2.2) * t +
      (2 * p0.2 - 5 * p1.2 + 4 * p2.2 - p3.2) * (t * t) +
      (-p0.2 + 3 * p1.2 - 3 * p2.2 + p3.2) * (t * t * t))))

/-- `AdvancedMouseSimulator._catmull_rom_spline` (lines 180–219). -/
def catmullRomSpline : List (ℚ × ℚ) → ℕ → List (ℤ × ℤ)
  | [], _ => []
  | [p], _ => [(pyInt p.1, pyInt p.2)]
  | p :: q :: rest, numSamples =>
    let pts := p :: q :: rest
    let lastP := pts.getLast (List.cons_ne_nil _ _)
    let extended := p :: (pts ++ [lastP])
    let segments := extended.length - 3
    let samplesPerSegment := numSamples / segments
    ((List.range segments).map (fun (seg : ℕ) =>
      (List.range samplesPerSegment).map (fun (i : ℕ) =>
        crPoint (extended.getD seg (0, 0)) (extended.getD (seg + 1) (0, 0))
          (extended.getD (seg + 2) (0, 0)) (extended.getD (seg + 3) (0, 0))
          ((i : ℚ) / (samplesPerSegment : ℚ))))).flatten
    ++ [(pyInt lastP.1, pyInt lastP.2)]

/-- `max(15, int(distance / 5))`, the sample count of `move_to`
(line 239). -/
def moveNumPoints (dist : ℚ) : ℕ := (max 15 (pyInt (dist / 5))).toNat

/-- The sampled path of one `move_to` trajectory generation
(lines 238–240). -/
def movePath (r : MoveDraws) (dist : ℚ) (start target : ℤ × ℤ)
    (overshoot : Bool) : List (ℤ × ℤ) :=
  catmullRomSpline (generateControlPoints r dist start target overshoot)
    (moveNumPoints dist)

/-- The hand-tremor offset applied to sample `i` of the path
(lines 245–251): `final = int(sample + perlin * 2)` on each axis. -/
def tremorApply (r : MoveDraws) (i : ℕ) (p : ℤ × ℤ) : ℤ × ℤ :=
  (pyInt ((p.1 : ℚ) + r.noiseX i * 2), pyInt ((p.2 : ℚ) + r.noiseY i * 2))

/-- The positions actually sent to `page.mouse.move` by the traversal
loop of `move_to` (lines 245–266): tremor is added to *every* sample of
the path, index included. -/
def moveEmitted (r : MoveDraws) (path : List (ℤ × ℤ)) : List (ℤ × ℤ) :=
  path.enum.map (fun ip => tremorApply r ip.1 ip.2)

/-- Result of a `move_to` call: the emitted device moves, the final
`current_pos`, and how many spline trajectory generations ran. -/
structure MoveResult where
  emitted : List (ℤ × ℤ)
  pos : ℤ × ℤ
  gens : ℕ
deriving DecidableEq, Repr

/-- `move_to(target, allow_overshoot=False)` — the form taken by the
recursive correction call (line 271); with the flag false the recursion
cannot trigger again. -/
def moveToNoOvershoot (r : MoveDraws) (dist : ℚ) (cur target : ℤ × ℤ) :
    MoveResult :=
  if dist < 5 then ⟨[], cur, 0⟩
  else
    let emitted := moveEmitted r (movePath r dist cur target false)
    ⟨emitted, emitted.getLastD cur, 1⟩

/-- `AdvancedMouseSimulator.move_to` (lines 221–271).  `dist` is the
Euclidean distance from `cur` to `target`; `dist2 p` is the Euclidean
distance from a position `p` to `target`, used by the recursive
correction call; `r2` holds that call's draws. -/
def moveTo (r r2 : MoveDraws) (dist : ℚ) (dist2 : ℤ × ℤ → ℚ)
    (cur target : ℤ × ℤ) (allowOvershoot : Bool) : MoveResult :=
  if dist < 5 then ⟨[], cur, 0⟩
  else
    let overshoot := allowOvershoot && r.mistakeRoll && decide (50 < dist)
    let emitted := moveEmitted r (movePath r dist cur target overshoot)
    let pos := emitted.getLastD cur
    if overshoot then
      let corr := moveToNoOvershoot r2 (dist2 pos) pos target
      ⟨emitted ++ corr.emitted, corr.pos, 1 + corr.gens⟩
    else ⟨emitted, pos, 1⟩

/-- The final `current_pos` after traversing an overshoot-leg path: the
tremor image of the path's last sample (which is the target). -/
def overshootLegEnd (r : MoveDraws) (dist : ℚ) (cur target : ℤ × ℤ) :
    ℤ × ℤ :=
  tremorApply r ((movePath r dist cur target true).length - 1) target

/-! ## `AdvancedScrollSimulator` (lines 313–374) -/

/-- Scroll direction argument of `scroll`. -/
inductive ScrollDirection
  | up
  | down
deriving DecidableEq

/-- Random draws and transcendental values of one `scroll` call:
`defaultAmount` is the `random.randint(150, 400)` fallback, `steps` the
`random.randint(8, 15)` draw, `sinVel i` stands for
`math.sin((i / (steps - 1)) * math.pi)`, `jitter i` for the per-step
`random.randint(-3, 3)`, `inertiaRoll` for `random.random() < 0.3` and
`inertiaAmount` for `random.randint(10, 30)`. -/
structure ScrollDraws where
  defaultAmount : ℤ
  steps : ℕ
  sinVel : ℕ → ℚ
  jitter : ℕ → ℤ
  inertiaRoll : Bool
  inertiaAmount : ℤ

/-- The ease-in-out velocity profile (lines 342–347). -/
def scrollVelocities (r : ScrollDraws) : List ℚ :=
  (List.range r.steps).map (fun i => r.sinVel i)

/-- The normalized, truncated and remainder-corrected step amounts
(lines 349–355): `int(amount * v / total)` per step, then the rounding
remainder is added to the middle step. -/
def scrollStepAmounts (r : ScrollDraws) (amount : ℤ) : List ℤ :=
  let velocities := scrollVelocities r
  let total := velocities.sum
  let stepAmounts := velocities.map (fun v => pyInt ((amount : ℚ) * v / total))
  let diff := amount - stepAmounts.sum
  stepAmounts.set (stepAmounts.length / 2)
    (stepAmounts.getD (stepAmounts.length / 2) 0 + diff)

/-- `AdvancedScrollSimulator.scroll` (lines 320–374): the list of signed
wheel deltas passed to `page.mouse.wheel`.  Each smooth step emits
`step_amount + randint(-3, 3)`, and with probability 0.3 a final
same-direction inertia event is appended. -/
def scroll (r : ScrollDraws) (direction : ScrollDirection)
    (amount? : Option ℤ) (smooth : Bool) : List ℤ :=
  let amount := amount?.getD r.defaultAmount
  let amount := match direction with
    | .up => -amount
    | .down => amount
  if !smooth then [amount]
  else
    let stepAmounts := scrollStepAmounts r amount
    let emitted := stepAmounts.enum.map (fun iv => iv.2 + r.jitter iv.1)
    emitted ++
      (if r.inertiaRoll then
        [r.inertiaAmount * (if 0 < amount then 1 else -1)]
      else [])

/-! ## Concrete draw instances used to evaluate the model -/

/-- In-range personality draws. -/
def pDrawsEx : PersonalityDraws := ⟨1, 0.9, 1, 0.5, 0.8⟩

/-- A freshly initialized behavior. -/
def behaviorEx : HumanBehavior := initBehavior pDrawsEx

/-- Delay draws whose thinking roll fails (`1 ≥ 0.05`). -/
def delayDrawsEx : DelayDraws := ⟨1, 1, 3⟩

/-- Draws for a `move_to` from `(0,0)` to `(100,0)` whose mistake roll
fails.  The direction of travel is the positive x-axis, so
`dirCos = 1`, `dirSin = 0` exactly; the noise value 1 is attained by
the three-octave oscillator (e.g. at phase `0.25`). -/
def mvDrawsEx : MoveDraws :=
  { ctrlDevSin := fun _ => 0.86
    ctrlAngleCos := fun _ => 1
    ctrlAngleSin := fun _ => 0
    dirCos := 1
    dirSin := 0
    overshootDist := 10
    mistakeRoll := false
    noiseX := fun _ => 1
    noiseY := fun _ => 0 }

/-- Same draws with the mistake roll forced to succeed. -/
def mvDrawsEx7 : MoveDraws :=
  { mvDrawsEx with mistakeRoll := true }

/-- Scroll draws: 8 steps, the sine velocity profile of
`sin(i*pi/7)` approximated at each index, every per-step jitter draw
equal to `+3`, no inertia roll. -/
def scrollDrawsEx : ScrollDraws :=
  { defaultAmount := 300
    steps := 8
    sinVel := fun i =>
      [0, 43/100, 39/50, 97/100, 97/100, 39/50, 43/100, 0].getD i 0
    jitter := fun _ => 3
    inertiaRoll := false
    inertiaAmount := 10 }

/-! ## General list lemmas -/

theorem enumFrom_map_getLast? {α β : Type} (F : ℕ × α → β) :
    ∀ (l : List α) (n : ℕ) (a : α), l.getLast? = some a →
      ((List.enumFrom n l).map F).getLast? = some (F (n + l.length - 1, a))
  | [], _, _, h => by simp at h
  | [x], n, a, h => by
    simp only [List.getLast?_singleton, Option.some.injEq] at h
    subst h
    simp [List.enumFrom]
  | x :: y :: ys, n, a, h => by
    rw [List.getLast?_cons_cons] at h
    have ih := enumFrom_map_getLast? F (y :: ys) (n + 1) a h
    simp only [List.enumFrom, List.map_cons]
    rw [List.getLast?_cons_cons]
    simp only [List.enumFrom, List.map_cons] at ih
    rw [ih]
    simp only [List.length_cons, Option.some.injEq]
    congr 2
    omega

theorem enum_map_getLast? {α β : Type} (F : ℕ × α → β) (l : List α) (a : α)
    (h : l.getLast? = some a) :
    ((l.enum).map F).getLast? = some (F (l.length - 1, a)) := by
  have := enumFrom_map_getLast? F l 0 a h
  simpa [List.enum] using this

theorem enum_map_head? {α β : Type} (F : ℕ × α → β) (l : List α) :
    ((l.enum).map F).head? = l.head?.map (fun a => F (0, a)) := by
  cases l with
  | nil => simp
  | cons x xs => simp [List.enum, List.enumFrom]

theorem enumFrom_map_sum (j : ℕ → ℤ) :
    ∀ (l : List ℤ) (n : ℕ),
      ((List.enumFrom n l).map (fun iv => iv.2 + j iv.1)).sum
        = l.sum + ((List.range l.length).map (fun i => j (n + i))).sum
  | [], n => by simp
  | x :: xs, n => by
    have ih := enumFrom_map_sum j xs (n + 1)
    simp only [List.enumFrom, List.map_cons, List.sum_cons, ih,
      List.length_cons, List.range_succ_eq_map, List.map_map]
    have harg : ((fun i => j (n + i)) ∘ Nat.succ) = fun i => j (n + 1 + i) := by
      funext i
      simp only [Function.comp_apply]
      congr 1
      omega
    rw [harg]
    simp only [Nat.add_zero]
    abel

theorem enum_map_sum (j : ℕ → ℤ) (l : List ℤ) :
    ((l.enum).map (fun iv => iv.2 + j iv.1)).sum
      = l.sum + ((List.range l.length).map (fun i => j i)).sum := by
  have := enumFrom_map_sum j l 0
  simpa [List.enum] using this

theorem sum_set_getD :
    ∀ (L : List ℤ) (n : ℕ), n < L.length →
      ∀ d : ℤ, (L.set n (L.getD n 0 + d)).sum = L.sum + d
  | [], n, h, _ => by simp at h
  | x :: xs, 0, _, d => by
    simp [List.sum_cons]
    ring
  | x :: xs, n + 1, h, d => by
    simp only [List.length_cons, Nat.add_lt_add_iff_right] at h
    have ih := sum_set_getD xs n h d
    simp only [List.set_cons_succ, List.getD_cons_succ, List.sum_cons, ih]
    ring

/-! ## Spline and control-polygon lemmas -/

/-- At parameter `t = 0` the Catmull-Rom cubic passes exactly through
its second control point. -/
theorem crPoint_zero (p0 p1 p2 p3 : ℚ × ℚ) :
    crPoint p0 p1 p2 p3 0 = (pyInt p1.1, pyInt p1.2) := by
  have h : ∀ a b c d : ℚ,
      0.5 * (2 * a + b * (0 : ℚ) + c * ((0 : ℚ) * 0) + d * ((0 : ℚ) * 0 * 0))
        = a := by
    intro a b c d
    ring
  unfold crPoint
  rw [h, h]

/-- The spline always ends with the truncation of the last control
point (it is appended unconditionally, line 218). -/
theorem catmullRomSpline_getLast? (pts : List (ℚ × ℚ)) (n : ℕ)
    (h : pts ≠ []) :
    (catmullRomSpline pts n).getLast?
      = pts.getLast?.map (fun a => (pyInt a.1, pyInt a.2)) := by
  match pts with
  | [] => exact absurd rfl h
  | [p] => simp [catmullRomSpline]
  | p :: q :: rest =>
    simp only [catmullRomSpline, List.getLast?_concat]
    rw [List.getLast?_eq_getLast _ (List.cons_ne_nil _ _)]
    simp

/-- The first sample of the spline is the truncation of the first
control point, provided every segment receives at least one sample. -/
theorem catmullRomSpline_head? (pts : List (ℚ × ℚ)) (n : ℕ)
    (h2 : 2 ≤ pts.length) (hn : pts.length - 1 ≤ n) :
    (catmullRomSpline pts n).head?
      = pts.head?.map (fun a => (pyInt a.1, pyInt a.2)) := by
  match pts with
  | [] => simp at h2
  | [p] => simp at h2
  | p :: q :: rest =>
    have hseg : (p :: ((p :: q :: rest) ++
        [(p :: q :: rest).getLast (List.cons_ne_nil _ _)])).length - 3
          = rest.length + 1 := by
      simp
    have hlen : rest.length + 1 ≤ n := by
      simp only [List.length_cons] at hn
      omega
    have hsps : 1 ≤ n / (rest.length + 1) :=
      (Nat.one_le_div_iff (Nat.succ_pos _)).mpr hlen
    obtain ⟨m, hm⟩ : ∃ m, n / (rest.length + 1) = m + 1 :=
      ⟨n / (rest.length + 1) - 1, by omega⟩
    simp only [catmullRomSpline, hseg, hm]
    rw [List.range_succ_eq_map (rest.length), List.range_succ_eq_map m]
    simp only [List.map_cons, List.flatten_cons, List.cons_append,
      List.head?_cons, List.head?_cons, Nat.cast_zero, zero_div]
    rw [List.getD_cons_succ, List.getD_cons_zero, crPoint_zero]
    simp

/-- Shape facts about `_generate_control_points`. -/
theorem generateControlPoints_length (r : MoveDraws) (dist : ℚ)
    (start target : ℤ × ℤ) (o : Bool) :
    (generateControlPoints r dist start target o).length
      = (max 2 (pyInt (dist / 100))).toNat + 2 + (if o then 1 else 0) := by
  cases o <;> simp [generateControlPoints]

theorem generateControlPoints_head? (r : MoveDraws) (dist : ℚ)
    (start target : ℤ × ℤ) (o : Bool) :
    (generateControlPoints r dist start target o).head?
      = some ((start.1 : ℚ), (start.2 : ℚ)) := by
  cases o <;> simp [generateControlPoints]

theorem generateControlPoints_getLast? (r : MoveDraws) (dist : ℚ)
    (start target : ℤ × ℤ) (o : Bool) :
    (generateControlPoints r dist start target o).getLast?
      = some ((target.1 : ℚ), (target.2 : ℚ)) := by
  simp only [generateControlPoints]
  exact List.getLast?_concat _

/-- With `d ≥ 5`, the number of requested samples `max(15, int(d/5))` is
at least the number of spline segments, so every segment receives at
least one sample. -/
theorem controls_length_le (r : MoveDraws) (dist : ℚ) (h : 5 ≤ dist)
    (start target : ℤ × ℤ) (o : Bool) :
    (generateControlPoints r dist start target o).length - 1
      ≤ moveNumPoints dist := by
  rw [generateControlPoints_length]
  have hd0 : (0 : ℚ) ≤ dist / 100 := by linarith
  have hd5 : (0 : ℚ) ≤ dist / 5 := by linarith
  have hk : pyInt (dist / 100) = ⌊dist / 100⌋ := pyInt_eq_floor _ hd0
  have h5 : pyInt (dist / 5) = ⌊dist / 5⌋ := pyInt_eq_floor _ hd5
  rw [hk] at *
  rw [moveNumPoints, h5]
  have h15 : (15 : ℤ) ≤ max 15 ⌊dist / 5⌋ := le_max_left _ _
  rcases le_or_lt (⌊dist / 100⌋ : ℤ) 13 with hle | hgt
  · have hmax : max 2 ⌊dist / 100⌋ ≤ 13 := by omega
    have h1 : (max 2 ⌊dist / 100⌋).toNat ≤ 13 := by omega
    have h2 : (15 : ℤ).toNat ≤ (max 15 ⌊dist / 5⌋).toNat :=
      Int.toNat_le_toNat h15
    cases o <;> simp <;> omega
  · have hq : ((⌊dist / 100⌋ : ℤ) : ℚ) ≤ dist / 100 := Int.floor_le _
    have h20 : (20 * ⌊dist / 100⌋ : ℤ) ≤ ⌊dist / 5⌋ := by
      apply Int.le_floor.mpr
      push_cast
      linarith
    have hmax2 : max 2 ⌊dist / 100⌋ = ⌊dist / 100⌋ := max_eq_right (by omega)
    have h20' : (20 * ⌊dist / 100⌋ : ℤ) ≤ max 15 ⌊dist / 5⌋ :=
      le_trans h20 (le_max_right _ _)
    rw [hmax2]
    cases o <;> simp <;> omega

/-- `2 ≤` number of control points, always. -/
theorem two_le_controls_length (r : MoveDraws) (dist : ℚ)
    (start target : ℤ × ℤ) (o : Bool) :
    2 ≤ (generateControlPoints r dist start target o).length := by
  rw [generateControlPoints_length]
  omega

/-- The pre-tremor sampled path starts exactly at the start point. -/
theorem movePath_head? (r : MoveDraws) (dist : ℚ) (h : 5 ≤ dist)
    (start target : ℤ × ℤ) (o : Bool) :
    (movePath r dist start target o).head? = some start := by
  rw [movePath, catmullRomSpline_head? _ _
    (two_le_controls_length r dist start target o)
    (controls_length_le r dist h start target o),
    generateControlPoints_head?]
  simp [pyInt_intCast]

/-- The pre-tremor sampled path ends exactly at the target point. -/
theorem movePath_getLast? (r : MoveDraws) (dist : ℚ)
    (start target : ℤ × ℤ) (o : Bool) :
    (movePath r dist start target o).getLast? = some target := by
  have hne : generateControlPoints r dist start target o ≠ [] := by
    have := two_le_controls_length r dist start target o
    intro hnil
    rw [hnil] at this
    simp at this
  rw [movePath, catmullRomSpline_getLast? _ _ hne,
    generateControlPoints_getLast?]
  simp [pyInt_intCast]

theorem movePath_ne_nil (r : MoveDraws) (dist : ℚ)
    (start target : ℤ × ℤ) (o : Bool) :
    movePath r dist start target o ≠ [] := by
  intro hnil
  have := movePath_getLast? r dist start target o
  rw [hnil] at this
  simp at this

/-- The emitted device moves are the tremor images of the path samples;
the last one is the tremor image of the target. -/
theorem moveEmitted_getLastD (r : MoveDraws) (path : List (ℤ × ℤ))
    (a cur : ℤ × ℤ) (h : path.getLast? = some a) :
    (moveEmitted r path).getLastD cur
      = tremorApply r (path.length - 1) a := by
  rw [List.getLastD_eq_getLast?, moveEmitted,
    enum_map_getLast? _ path a h]
  rfl

theorem moveEmitted_head? (r : MoveDraws) (path : List (ℤ × ℤ)) :
    (moveEmitted r path).head?
      = path.head?.map (fun a => tremorApply r 0 a) := by
  rw [moveEmitted, enum_map_head?]

/-! ## `move_to` run lemmas -/

/-- `move_to` with a failing mistake roll: one trajectory generation, no
correction call. -/
theorem moveTo_no_overshoot_run (r r2 : MoveDraws) (dist : ℚ)
    (dist2 : ℤ × ℤ → ℚ) (cur target : ℤ × ℤ) (h5 : ¬dist < 5)
    (hmr : r.mistakeRoll = false) :
    moveTo r r2 dist dist2 cur target true
      = ⟨moveEmitted r (movePath r dist cur target false),
         (moveEmitted r (movePath r dist cur target false)).getLastD cur,
         1⟩ := by
  simp [moveTo, h5, hmr]

/-- Truncation of an integer shifted by at most three units stays within
three units of that integer. -/
theorem pyInt_shift_bound (x : ℤ) (t : ℚ) (h : |t| ≤ 3) :
    -3 ≤ pyInt ((x : ℚ) + t) - x ∧ pyInt ((x : ℚ) + t) - x ≤ 3 := by
  obtain ⟨hl, hr⟩ := abs_le.mp h
  have h1 := pyInt_lt_add_one ((x : ℚ) + t)
  have h2 := sub_one_lt_pyInt ((x : ℚ) + t)
  have hup : ((pyInt ((x : ℚ) + t) : ℤ) : ℚ) < ((x + 4 : ℤ) : ℚ) := by
    push_cast
    linarith
  have hlo : ((x - 4 : ℤ) : ℚ) < ((pyInt ((x : ℚ) + t) : ℤ) : ℚ) := by
    push_cast
    linarith
  have hup' : pyInt ((x : ℚ) + t) < x + 4 := by exact_mod_cast hup
  have hlo' : x - 4 < pyInt ((x : ℚ) + t) := by exact_mod_cast hlo
  omega

/-- `move_to` with a successful mistake roll on a long route: the single
overshoot-leg generation runs, and when the residual distance of the
correction call is below 5 the correction returns immediately. -/
theorem moveTo_overshoot_run (r r2 : MoveDraws) (dist : ℚ)
    (dist2 : ℤ × ℤ → ℚ) (cur target : ℤ × ℤ)
    (hmr : r.mistakeRoll = true) (h50 : 50 < dist)
    (hcorr : dist2 (overshootLegEnd r dist cur target) < 5) :
    moveTo r r2 dist dist2 cur target true
      = ⟨moveEmitted r (movePath r dist cur target true),
         overshootLegEnd r dist cur target, 1⟩ := by
  have h5 : ¬dist < 5 := by linarith
  have hpos : (moveEmitted r (movePath r dist cur target true)).getLastD cur
      = overshootLegEnd r dist cur target :=
    moveEmitted_getLastD r _ target cur (movePath_getLast? r dist cur target true)
  simp only [moveTo, if_neg h5, hmr, Bool.and_true, Bool.true_and,
    decide_eq_true h50, if_pos trivial, hpos]
  simp [moveToNoOvershoot, hcorr]

/-- The next-to-last element of a list of the form `(l ++ [a]) ++ [b]`
is `a`. -/
theorem getD_penultimate {α : Type} (l : List α) (a b d : α) :
    ((l ++ [a]) ++ [b]).getD (((l ++ [a]) ++ [b]).length - 2) d = a := by
  have hlen : ((l ++ [a]) ++ [b]).length = l.length + 2 := by simp
  rw [List.append_assoc, List.getD_eq_getElem?_getD]
  have hidx : ((l ++ [a]) ++ [b]).length - 2 = l.length := by omega
  rw [List.append_assoc] at hidx
  rw [hidx, List.getElem?_append_right (le_refl l.length)]
  simp

/-- The overshoot control point sits `overshootDist` beyond the target
along the (cos, sin) of the direction of travel, immediately before the
final target control point. -/
theorem overshoot_control_point (r : MoveDraws) (dist : ℚ)
    (cur target : ℤ × ℤ) :
    (generateControlPoints r dist cur target true).getD
        ((generateControlPoints r dist cur target true).length - 2) (0, 0)
      = ((target.1 : ℚ) + r.dirCos * r.overshootDist,
         (target.2 : ℚ) + r.dirSin * r.overshootDist) := by
  simp only [generateControlPoints, if_pos trivial]
  exact getD_penultimate _ _ _ _

/-! ## Scroll lemmas -/

theorem scrollStepAmounts_length (r : ScrollDraws) (a : ℤ) :
    (scrollStepAmounts r a).length = r.steps := by
  simp [scrollStepAmounts, scrollVelocities]

/-- The middle-step remainder correction makes the pre-jitter step
amounts sum exactly to the requested amount. -/
theorem scrollStepAmounts_sum (r : ScrollDraws) (a : ℤ)
    (h : 1 ≤ r.steps) :
    (scrollStepAmounts r a).sum = a := by
  unfold scrollStepAmounts
  have hlen : ((scrollVelocities r).map
      (fun v => pyInt ((a : ℚ) * v / (scrollVelocities r).sum))).length
        = r.steps := by
    simp [scrollVelocities]
  have hmid : ((scrollVelocities r).map
      (fun v => pyInt ((a : ℚ) * v / (scrollVelocities r).sum))).length / 2
        < ((scrollVelocities r).map
          (fun v => pyInt ((a : ℚ) * v / (scrollVelocities r).sum))).length := by
    rw [hlen]
    omega
  rw [sum_set_getD _ _ hmid]
  ring

/-- The wheel deltas actually emitted by a smooth downward scroll sum to
the requested amount plus the per-step jitters plus the optional
inertia event. -/
theorem scroll_down_sum (r : ScrollDraws) (a : ℤ) (h : 1 ≤ r.steps) :
    (scroll r ScrollDirection.down (some a) true).sum
      = a + ((List.range r.steps).map (fun i => r.jitter i)).sum
        + (if r.inertiaRoll then
            r.inertiaAmount * (if 0 < a then 1 else -1)
          else 0) := by
  simp only [scroll, Option.getD_some, Bool.not_true, Bool.false_eq_true,
    if_false, List.sum_append]
  rw [enum_map_sum, scrollStepAmounts_length, scrollStepAmounts_sum r a h]
  congr 1
  cases r.inertiaRoll <;> simp

/-! ## Behavioral-state lemmas -/

theorem recordActions_actionsCount (m : ℕ → ℚ) (b : HumanBehavior) :
    ∀ k, (recordActions m b k).actionsCount = b.actionsCount + k
  | 0 => rfl
  | k + 1 => by
    simp [recordActions, updateFatigue, recordActions_actionsCount m b k]
    omega

theorem recordActions_personality (m : ℕ → ℚ) (b : HumanBehavior) :
    ∀ k, (recordActions m b k).personality = b.personality
  | 0 => rfl
  | k + 1 => by
    simp [recordActions, updateFatigue, recordActions_personality m b k]

/-- Closed form of the fatigue value after the `(k+1)`-st
`update_fatigue` call on a fresh behavior: the action count entering the
call is `k`. -/
theorem recordActions_fatigue_formula (m : ℕ → ℚ) (d : PersonalityDraws)
    (k : ℕ) :
    (recordActions m (initBehavior d) (k + 1)).fatigue
      = min (min (m k / 60) 0.5 + min ((k : ℚ) / 100) 0.3) 0.8 := by
  have hc : (recordActions m (initBehavior d) k).actionsCount = k := by
    rw [recordActions_actionsCount]
    simp [initBehavior]
  simp [recordActions, updateFatigue, hc]

theorem recordActions_fatigue_le (m : ℕ → ℚ) (d : PersonalityDraws) :
    ∀ k, (recordActions m (initBehavior d) k).fatigue ≤ 0.8
  | 0 => by norm_num [recordActions, initBehavior]
  | k + 1 => by
    rw [recordActions_fatigue_formula]
    exact min_le_right _ _

theorem recordActions_fatigue_step (m : ℕ → ℚ) (hm : Monotone m)
    (h0 : 0 ≤ m 0) (d : PersonalityDraws) (k : ℕ) :
    (recordActions m (initBehavior d) k).fatigue
      ≤ (recordActions m (initBehavior d) (k + 1)).fatigue := by
  cases k with
  | zero =>
    rw [recordActions_fatigue_formula]
    have h1 : (0 : ℚ) ≤ min (m 0 / 60) 0.5 := by
      apply le_min
      · positivity
      · norm_num
    have h2 : (0 : ℚ) ≤ min (((0 : ℕ) : ℚ) / 100) 0.3 := by
      apply le_min
      · norm_num
      · norm_num
    have : (recordActions m (initBehavior d) 0).fatigue = 0 := rfl
    rw [this]
    apply le_min
    · linarith
    · norm_num
  | succ n =>
    rw [recordActions_fatigue_formula, recordActions_fatigue_formula]
    have hmn : m n ≤ m (n + 1) := hm (Nat.le_succ n)
    have hcn : ((n : ℚ)) ≤ ((n + 1 : ℕ) : ℚ) := by
      push_cast
      linarith
    gcongr

theorem recordActions_fatigue_mono (m : ℕ → ℚ) (hm : Monotone m)
    (h0 : 0 ≤ m 0) (d : PersonalityDraws) :
    Monotone (fun k => (recordActions m (initBehavior d) k).fatigue) :=
  monotone_nat_of_le_succ (recordActions_fatigue_step m hm h0 d)

/-! ## Session-limit lemmas -/

/-- Once the limit check fails it keeps failing at any later time with
at least as many actions and the same session start. -/
theorem checkSessionLimits_absorbing (cfg : SessionConfig)
    (now now' : ℚ) (st st' : SessionStats)
    (hfail : checkSessionLimits cfg now st = false) (hle : now ≤ now')
    (htot : st.total ≤ st'.total)
    (hstart : st'.sessionStart = st.sessionStart) :
    checkSessionLimits cfg now' st' = false := by
  cases hs : st.sessionStart with
  | none =>
    have hs' : st'.sessionStart = none := by rw [hstart, hs]
    simp only [checkSessionLimits, hs, hs'] at hfail ⊢
    split_ifs at hfail with h1
    have h2 : cfg.maxActionsPerSession ≤ st'.total := le_trans h1 htot
    rw [if_pos h2]
  | some t0 =>
    have hs' : st'.sessionStart = some t0 := by rw [hstart, hs]
    simp only [checkSessionLimits, hs, hs'] at hfail ⊢
    split_ifs at hfail with h1 h2
    · have h1' : cfg.maxSessionDurationMinutes ≤ now' - t0 := by linarith
      rw [if_pos h1']
    · have h2' : cfg.maxActionsPerSession ≤ st'.total := le_trans h2 htot
      by_cases hA : cfg.maxSessionDurationMinutes ≤ now' - t0
      · rw [if_pos hA]
      · rw [if_neg hA, if_pos h2']

/-- The URL loop dispatches nothing once its entry check fails. -/
theorem processUrls_stop_outer (cfg : SessionConfig)
    (outerT innerT : ℕ → ℚ) :
    ∀ (urls : List UrlKind) (i : ℕ) (st : SessionStats),
      checkSessionLimits cfg (outerT i) st = false →
      (processUrls cfg outerT innerT urls i st).1 = [] := by
  intro urls i st h
  cases urls <;> simp [processUrls, h]

/-- If the inner (re-)check of the current URL fails, nothing is
dispatched for it, and by absorption nothing is dispatched afterwards
either. -/
theorem processUrls_stop_inner (cfg : SessionConfig)
    (outerT innerT : ℕ → ℚ) (hio : ∀ i, innerT i ≤ outerT (i + 1)) :
    ∀ (u : UrlKind) (urls : List UrlKind) (i : ℕ) (st : SessionStats),
      checkSessionLimits cfg (innerT i) st = false →
      (processUrls cfg outerT innerT (u :: urls) i st).1 = [] := by
  intro u urls i st h
  cases h1 : checkSessionLimits cfg (outerT i) st with
  | false => simp [processUrls, h1]
  | true =>
    have hnext : checkSessionLimits cfg (outerT (i + 1)) st = false :=
      checkSessionLimits_absorbing cfg (innerT i) (outerT (i + 1)) st st h
        (hio i) (le_refl _) rfl
    have hcont :=
      processUrls_stop_outer cfg outerT innerT urls (i + 1) st hnext
    cases u with
    | reel => simp [processUrls, h1, processUrl, h, hcont]
    | post => simp [processUrls, h1, processUrl, h, hcont]
    | unknown => simp [processUrls, h1, processUrl, hcont]

/-! ## Claim theorems -/

/-- C2: across any sequence of `update_fatigue` calls in one session
(elapsed times nonnegative and non-decreasing), the fatigue value after
each call equals `min(min(minutes/60, 0.5) + min(count/100, 0.3), 0.8)`
where `count` is the action count entering the call, never exceeds 0.8,
and the fatigue sequence is monotone non-decreasing. -/
theorem c2_fatigue_invariant (m : ℕ → ℚ) (hm : Monotone m) (h0 : 0 ≤ m 0)
    (d : PersonalityDraws) :
    (∀ k, (recordActions m (initBehavior d) (k + 1)).fatigue
        = min (min (m k / 60) 0.5 + min ((k : ℚ) / 100) 0.3) 0.8)
  ∧ (∀ k, (recordActions m (initBehavior d) k).fatigue ≤ 0.8)
  ∧ (∀ j k, j ≤ k →
      (recordActions m (initBehavior d) j).fatigue
        ≤ (recordActions m (initBehavior d) k).fatigue) :=
  ⟨recordActions_fatigue_formula m d, recordActions_fatigue_le m d,
   fun _ _ hjk => recordActions_fatigue_mono m hm h0 d hjk⟩

/-- C2 witness: the fatigue invariant evaluated after three calls with
the identity clock. -/
theorem c2_fatigue_invariant_witness :
    Monotone (fun k : ℕ => (k : ℚ)) ∧ (0 : ℚ) ≤ ((0 : ℕ) : ℚ)
  ∧ (recordActions (fun k : ℕ => (k : ℚ)) (initBehavior pDrawsEx) 3).fatigue
      ≤ 0.8 := by
  have hm : Monotone (fun k : ℕ => (k : ℚ)) := fun a b h => by
    simp only []
    exact_mod_cast h
  exact ⟨hm, by norm_num,
    (c2_fatigue_invariant (fun k : ℕ => (k : ℚ)) hm (by norm_num)
      pDrawsEx).2.1 3⟩

/-- C10: for `0 ≤ base_min ≤ base_max` and arbitrary gauss draw,
personality speed, fatigue and thinking multiplier, the adjusted delay
lies in `[0.5 * base_min, 2 * base_max]`. -/
theorem c10_delay_bounds (b : HumanBehavior) (r : DelayDraws)
    (baseMin baseMax : ℚ) (h0 : 0 ≤ baseMin) (h : baseMin ≤ baseMax) :
    baseMin * 0.5 ≤ getAdjustedDelay b r baseMin baseMax
  ∧ getAdjustedDelay b r baseMin baseMax ≤ baseMax * 2 := by
  simp only [getAdjustedDelay]
  constructor
  · exact le_max_left _ _
  · apply max_le
    · linarith
    · exact min_le_left _ _

/-- C10 witness: the delay bounds evaluated at `base_min = 1`,
`base_max = 2`. -/
theorem c10_delay_bounds_witness :
    ((0 : ℚ) ≤ 1 ∧ (1 : ℚ) ≤ 2)
  ∧ ((1 : ℚ) * 0.5 ≤ getAdjustedDelay behaviorEx delayDrawsEx 1 2
    ∧ getAdjustedDelay behaviorEx delayDrawsEx 1 2 ≤ 2 * 2) :=
  ⟨⟨by norm_num, by norm_num⟩,
   c10_delay_bounds behaviorEx delayDrawsEx 1 2 (by norm_num) (by norm_num)⟩

/-- C4 (amended): the record written at shutdown contains the
personality, a last-session timestamp *and* the whole stats dict
(hence the session clock); of the behavior only the personality is
persisted — fatigue and the behavior's own clock are not. -/
theorem c4_saved_record_amended (now : ℚ) (behavior : HumanBehavior)
    (stats : SessionStats) :
    (saveStateRecord now behavior stats).personality = behavior.personality
  ∧ (saveStateRecord now behavior stats).lastSession = now
  ∧ (saveStateRecord now behavior stats).stats = stats
  ∧ savedStateKeys = ["personality", "last_session", "stats"]
  ∧ (∀ b' : HumanBehavior, b'.personality = behavior.personality →
      saveStateRecord now b' stats = saveStateRecord now behavior stats) :=
  ⟨rfl, rfl, rfl, rfl, fun b' h => by simp [saveStateRecord, h]⟩

/-- C4 counterexample: the persisted record is not limited to the
personality and timestamp — it carries the `stats` key, including the
action count and the session start time. -/
theorem c4_counterexample :
    "stats" ∈ savedStateKeys
  ∧ savedStateKeys ≠ ["personality", "last_session"]
  ∧ (saveStateRecord 0 behaviorEx ⟨7, some 3⟩).stats = ⟨7, some 3⟩ := by
  refine ⟨?_, ?_, rfl⟩
  · simp [savedStateKeys]
  · simp [savedStateKeys]

/-- C5: the session-limit check is absorbing (once false it stays false
at any later time with at least as many actions), and `process_urls`
dispatches no further URL once a check — the loop check or the inner
re-check — has failed. -/
theorem c5_terminated_absorbing (cfg : SessionConfig)
    (outerT innerT : ℕ → ℚ) (hio : ∀ i, innerT i ≤ outerT (i + 1)) :
    (∀ (now now' : ℚ) (st st' : SessionStats),
        checkSessionLimits cfg now st = false → now ≤ now' →
        st.total ≤ st'.total → st'.sessionStart = st.sessionStart →
        checkSessionLimits cfg now' st' = false)
  ∧ (∀ (urls : List UrlKind) (i : ℕ) (st : SessionStats),
        checkSessionLimits cfg (outerT i) st = false →
        (processUrls cfg outerT innerT urls i st).1 = [])
  ∧ (∀ (u : UrlKind) (urls : List UrlKind) (i : ℕ) (st : SessionStats),
        checkSessionLimits cfg (innerT i) st = false →
        (processUrls cfg outerT innerT (u :: urls) i st).1 = []) :=
  ⟨fun now now' st st' h1 h2 h3 h4 =>
     checkSessionLimits_absorbing cfg now now' st st' h1 h2 h3 h4,
   processUrls_stop_outer cfg outerT innerT,
   processUrls_stop_inner cfg outerT innerT hio⟩

/-- C5 witness: with an action ceiling of 0, the very first check
fails and no URL is dispatched. -/
theorem c5_terminated_absorbing_witness :
    ((0 : ℚ) ≤ 0)
  ∧ (processUrls ⟨45, 0⟩ (fun _ => 0) (fun _ => 0)
      [UrlKind.reel, UrlKind.post] 0 ⟨0, some 0⟩).1 = [] := by
  have hio : ∀ i : ℕ, (fun _ : ℕ => (0 : ℚ)) i
      ≤ (fun _ : ℕ => (0 : ℚ)) (i + 1) := fun _ => le_refl 0
  have hfail : checkSessionLimits ⟨45, 0⟩ ((fun _ : ℕ => (0 : ℚ)) 0)
      ⟨0, some 0⟩ = false := by
    norm_num [checkSessionLimits]
  exact ⟨le_refl 0,
    (c5_terminated_absorbing ⟨45, 0⟩ _ _ hio).2.1
      [UrlKind.reel, UrlKind.post] 0 ⟨0, some 0⟩ hfail⟩

/-- C6: traits sampled in their declared ranges are in bounds, no
`update_fatigue` sequence ever changes them, and saving then restoring
the personality (the full save/load round trip) yields the same
in-bounds traits. -/
theorem c6_personality_bounds (d : PersonalityDraws) (hd : d.inRanges) :
    (initBehavior d).personality.inBounds
  ∧ (∀ (m : ℕ → ℚ) (k : ℕ),
      (recordActions m (initBehavior d) k).personality
        = (initBehavior d).personality)
  ∧ (∀ (m : ℕ → ℚ) (k : ℕ) (now : ℚ) (st : SessionStats)
        (b' : HumanBehavior),
      (loadState (StateFile.parsed (recordOfSaved (saveStateRecord now
          (recordActions m (initBehavior d) k) st))) b').personality
        = (initBehavior d).personality
      ∧ (loadState (StateFile.parsed (recordOfSaved (saveStateRecord now
          (recordActions m (initBehavior d) k) st))) b').personality.inBounds)
    := by
  have h1 : (initBehavior d).personality.inBounds := by
    simpa [initBehavior, Personality.inBounds, PersonalityDraws.inRanges]
      using hd
  refine ⟨h1, fun m k => recordActions_personality m _ k,
    fun m k now st b' => ?_⟩
  have h2 : (loadState (StateFile.parsed (recordOfSaved (saveStateRecord now
      (recordActions m (initBehavior d) k) st))) b').personality
        = (initBehavior d).personality := by
    simp [loadState, readStateFile, applyLoadedRecord, recordOfSaved,
      saveStateRecord, recordActions_personality]
  exact ⟨h2, by rw [h2]; exact h1⟩

/-- C6 witness: the personality invariants at an in-range draw. -/
theorem c6_personality_bounds_witness :
    pDrawsEx.inRanges ∧ (initBehavior pDrawsEx).personality.inBounds := by
  have hd : pDrawsEx.inRanges := by
    norm_num [PersonalityDraws.inRanges, pDrawsEx]
  exact ⟨hd, (c6_personality_bounds pDrawsEx hd).1⟩

/-- C9: the state file being absent or malformed never fails session
startup — the malformed read genuinely raises but the exception is
swallowed, the behavior keeps its freshly sampled personality, and a
well-formed record is applied. -/
theorem c9_state_load_robust :
    (∀ b, loadState StateFile.absent b = b)
  ∧ (∃ e, readStateFile StateFile.malformed = Except.error e)
  ∧ (∀ b, loadState StateFile.malformed b = loadState StateFile.absent b)
  ∧ (∀ d, mkBehavior StateFile.absent d = initBehavior d)
  ∧ (∀ d, mkBehavior StateFile.malformed d = initBehavior d)
  ∧ (∀ r b, loadState (StateFile.parsed r) b = applyLoadedRecord r b) :=
  ⟨fun _ => rfl, ⟨"json decode error", rfl⟩, fun _ => rfl, fun _ => rfl,
   fun _ => rfl, fun _ _ => rfl⟩

/-- Evaluation of the tremor map under the example draws (noise 1 on x,
0 on y): every sample is shifted two pixels right. -/
theorem tremorApply_mvDrawsEx (i : ℕ) (p : ℤ × ℤ) :
    tremorApply mvDrawsEx i p = (p.1 + 2, p.2) := by
  simp only [tremorApply, mvDrawsEx]
  have e1 : ((p.1 : ℚ) + 1 * 2) = ((p.1 + 2 : ℤ) : ℚ) := by
    push_cast
    ring
  have e2 : ((p.2 : ℚ) + 0 * 2) = ((p.2 : ℤ) : ℚ) := by
    ring
  rw [e1, e2, pyInt_intCast, pyInt_intCast]

theorem tremorApply_mvDrawsEx7 (i : ℕ) (p : ℤ × ℤ) :
    tremorApply mvDrawsEx7 i p = (p.1 + 2, p.2) := by
  simp only [tremorApply, mvDrawsEx7, mvDrawsEx]
  have e1 : ((p.1 : ℚ) + 1 * 2) = ((p.1 + 2 : ℤ) : ℚ) := by
    push_cast
    ring
  have e2 : ((p.2 : ℚ) + 0 * 2) = ((p.2 : ℤ) : ℚ) := by
    ring
  rw [e1, e2, pyInt_intCast, pyInt_intCast]

/-- Under the forced-mistake example draws, the overshoot leg from
`(0,0)` to `(100,0)` parks the pointer at `(102, 0)`. -/
theorem overshootLegEnd_ex :
    overshootLegEnd mvDrawsEx7 100 (0, 0) (100, 0) = (102, 0) := by
  unfold overshootLegEnd
  rw [tremorApply_mvDrawsEx7]
  rfl

/-- C1 (amended): for a `move_to` over distance ≥ 5 whose mistake roll
fails, the pre-tremor spline path's first sample equals the start and
its last sample equals the target exactly; however the traversal loop
applies the tremor offset to *every* emitted sample — the final one
included — so the final pointer position is `int(target + tremor)`, not
necessarily the target. -/
theorem c1_trajectory_endpoints_amended (r r2 : MoveDraws) (dist : ℚ)
    (dist2 : ℤ × ℤ → ℚ) (cur target : ℤ × ℤ) (h5 : 5 ≤ dist)
    (hmr : r.mistakeRoll = false) :
    (movePath r dist cur target false).head? = some cur
  ∧ (movePath r dist cur target false).getLast? = some target
  ∧ (moveTo r r2 dist dist2 cur target true).emitted
      = moveEmitted r (movePath r dist cur target false)
  ∧ (moveTo r r2 dist dist2 cur target true).pos
      = tremorApply r ((movePath r dist cur target false).length - 1)
          target := by
  have h5' : ¬dist < 5 := not_lt.mpr h5
  have hrun := moveTo_no_overshoot_run r r2 dist dist2 cur target h5' hmr
  refine ⟨movePath_head? r dist h5 cur target false,
    movePath_getLast? r dist cur target false, ?_, ?_⟩
  · rw [hrun]
  · rw [hrun]
    exact moveEmitted_getLastD r _ target cur
      (movePath_getLast? r dist cur target false)

/-- C1 witness: the amended endpoint facts evaluated on the
`(0,0) → (100,0)` move with the example draws. -/
theorem c1_trajectory_endpoints_witness :
    ((5 : ℚ) ≤ 100 ∧ mvDrawsEx.mistakeRoll = false)
  ∧ ((movePath mvDrawsEx 100 (0, 0) (100, 0) false).head? = some (0, 0)
    ∧ (movePath mvDrawsEx 100 (0, 0) (100, 0) false).getLast? = some (100, 0)
    ∧ (moveTo mvDrawsEx mvDrawsEx 100 (fun _ => 0) (0, 0) (100, 0)
        true).emitted
        = moveEmitted mvDrawsEx (movePath mvDrawsEx 100 (0, 0) (100, 0) false)
    ∧ (moveTo mvDrawsEx mvDrawsEx 100 (fun _ => 0) (0, 0) (100, 0) true).pos
        = tremorApply mvDrawsEx
            ((movePath mvDrawsEx 100 (0, 0) (100, 0) false).length - 1)
            (100, 0)) :=
  ⟨⟨by norm_num, rfl⟩,
   c1_trajectory_endpoints_amended mvDrawsEx mvDrawsEx 100 (fun _ => 0)
     (0, 0) (100, 0) (by norm_num) rfl⟩

/-- C1 counterexample: on the `(0,0) → (100,0)` move with final tremor
noise 1 (attainable by the oscillator), the last emitted sample is
`(102, 0)`, not the requested target — so the claim that the last
emitted sample exactly equals the target (tremor never touching it) is
false on the code. -/
theorem c1_counterexample :
    (moveTo mvDrawsEx mvDrawsEx 100 (fun _ => 0) (0, 0) (100, 0) true).pos
      ≠ (100, 0) := by
  have h5' : ¬(100 : ℚ) < 5 := by norm_num
  have hrun := moveTo_no_overshoot_run mvDrawsEx mvDrawsEx 100 (fun _ => 0)
    (0, 0) (100, 0) h5' rfl
  rw [hrun]
  have hpos := moveEmitted_getLastD mvDrawsEx
    (movePath mvDrawsEx 100 (0, 0) (100, 0) false) (100, 0) (0, 0)
    (movePath_getLast? mvDrawsEx 100 (0, 0) (100, 0) false)
  show (moveEmitted mvDrawsEx
      (movePath mvDrawsEx 100 (0, 0) (100, 0) false)).getLastD (0, 0)
    ≠ (100, 0)
  rw [hpos, tremorApply_mvDrawsEx]
  decide

/-- C7 (amended): a forced-mistake `move_to` over a route longer than 50
performs exactly *one* trajectory generation, whose control polygon
contains the overshoot point `overshootDist` beyond the target just
before the final target control point; the recursive correction call
finds the residual distance below 5 (the final tremor moves each axis
by at most 3) and returns without generating a second trajectory, so
the pointer ends at `int(target + tremor)` rather than exactly at the
target. -/
theorem c7_overshoot_amended (r r2 : MoveDraws) (dist : ℚ)
    (dist2 : ℤ × ℤ → ℚ) (cur target : ℤ × ℤ)
    (hmr : r.mistakeRoll = true) (h50 : 50 < dist)
    (hnx : |r.noiseX ((movePath r dist cur target true).length - 1)| ≤ 3 / 2)
    (hny : |r.noiseY ((movePath r dist cur target true).length - 1)| ≤ 3 / 2)
    (hd2 : 0 ≤ dist2 (overshootLegEnd r dist cur target))
    (hd2sq : dist2 (overshootLegEnd r dist cur target)
          * dist2 (overshootLegEnd r dist cur target)
        = ((target.1 - (overshootLegEnd r dist cur target).1 : ℤ) : ℚ) ^ 2
          + ((target.2 - (overshootLegEnd r dist cur target).2 : ℤ) : ℚ) ^ 2) :
    (generateControlPoints r dist cur target true).getD
        ((generateControlPoints r dist cur target true).length - 2) (0, 0)
      = ((target.1 : ℚ) + r.dirCos * r.overshootDist,
         (target.2 : ℚ) + r.dirSin * r.overshootDist)
  ∧ dist2 (overshootLegEnd r dist cur target) < 5
  ∧ moveTo r r2 dist dist2 cur target true
      = ⟨moveEmitted r (movePath r dist cur target true),
         overshootLegEnd r dist cur target, 1⟩ := by
  set L := (movePath r dist cur target true).length - 1 with hLdef
  have hbx : |r.noiseX L * 2| ≤ 3 := by
    rw [abs_mul, abs_two]
    linarith
  have hby : |r.noiseY L * 2| ≤ 3 := by
    rw [abs_mul, abs_two]
    linarith
  have hX := pyInt_shift_bound target.1 (r.noiseX L * 2) hbx
  have hY := pyInt_shift_bound target.2 (r.noiseY L * 2) hby
  have hend : overshootLegEnd r dist cur target
      = (pyInt ((target.1 : ℚ) + r.noiseX L * 2),
         pyInt ((target.2 : ℚ) + r.noiseY L * 2)) := rfl
  have hdx : ((target.1 - (overshootLegEnd r dist cur target).1 : ℤ) : ℚ) ^ 2
      ≤ 9 := by
    rw [hend]
    have h1 : -3 ≤ target.1 - pyInt ((target.1 : ℚ) + r.noiseX L * 2) := by
      omega
    have h2 : target.1 - pyInt ((target.1 : ℚ) + r.noiseX L * 2) ≤ 3 := by
      omega
    have h1' : (-3 : ℚ)
        ≤ ((target.1 - pyInt ((target.1 : ℚ) + r.noiseX L * 2) : ℤ) : ℚ) := by
      exact_mod_cast h1
    have h2' : ((target.1 - pyInt ((target.1 : ℚ) + r.noiseX L * 2) : ℤ) : ℚ)
        ≤ 3 := by
      exact_mod_cast h2
    nlinarith
  have hdy : ((target.2 - (overshootLegEnd r dist cur target).2 : ℤ) : ℚ) ^ 2
      ≤ 9 := by
    rw [hend]
    have h1 : -3 ≤ target.2 - pyInt ((target.2 : ℚ) + r.noiseY L * 2) := by
      omega
    have h2 : target.2 - pyInt ((target.2 : ℚ) + r.noiseY L * 2) ≤ 3 := by
      omega
    have h1' : (-3 : ℚ)
        ≤ ((target.2 - pyInt ((target.2 : ℚ) + r.noiseY L * 2) : ℤ) : ℚ) := by
      exact_mod_cast h1
    have h2' : ((target.2 - pyInt ((target.2 : ℚ) + r.noiseY L * 2) : ℤ) : ℚ)
        ≤ 3 := by
      exact_mod_cast h2
    nlinarith
  have hcorr : dist2 (overshootLegEnd r dist cur target) < 5 := by
    by_contra hge
    push_neg at hge
    have h25 : (25 : ℚ) ≤ dist2 (overshootLegEnd r dist cur target)
        * dist2 (overshootLegEnd r dist cur target) := by
      nlinarith
    rw [hd2sq] at h25
    linarith
  exact ⟨overshoot_control_point r dist cur target, hcorr,
    moveTo_overshoot_run r r2 dist dist2 cur target hmr h50 hcorr⟩

/-- C7 witness: the amended overshoot behavior evaluated on the forced
mistake move `(0,0) → (100,0)` with a correction-leg distance of 2. -/
theorem c7_overshoot_amended_witness :
    (mvDrawsEx7.mistakeRoll = true ∧ (50 : ℚ) < 100)
  ∧ moveTo mvDrawsEx7 mvDrawsEx 100 (fun _ => 2) (0, 0) (100, 0) true
      = ⟨moveEmitted mvDrawsEx7 (movePath mvDrawsEx7 100 (0, 0) (100, 0) true),
         (102, 0), 1⟩ := by
  refine ⟨⟨rfl, by norm_num⟩, ?_⟩
  have hnx : |mvDrawsEx7.noiseX
      ((movePath mvDrawsEx7 100 (0, 0) (100, 0) true).length - 1)| ≤ 3 / 2 := by
    show |(1 : ℚ)| ≤ 3 / 2
    norm_num
  have hny : |mvDrawsEx7.noiseY
      ((movePath mvDrawsEx7 100 (0, 0) (100, 0) true).length - 1)| ≤ 3 / 2 := by
    show |(0 : ℚ)| ≤ 3 / 2
    norm_num
  have h := (c7_overshoot_amended mvDrawsEx7 mvDrawsEx 100 (fun _ => 2)
    (0, 0) (100, 0) rfl (by norm_num) hnx hny (by norm_num)
    (by rw [overshootLegEnd_ex]; push_cast; norm_num)).2.2
  rw [overshootLegEnd_ex] at h
  exact h

/-- C7 counterexample: the forced-mistake move performs one trajectory
generation, not two, and the pointer ends at `(102, 0)`, not at the
original target `(100, 0)`. -/
theorem c7_counterexample :
    (moveTo mvDrawsEx7 mvDrawsEx 100 (fun _ => 2) (0, 0) (100, 0) true).gens
      = 1
  ∧ (moveTo mvDrawsEx7 mvDrawsEx 100 (fun _ => 2) (0, 0) (100, 0) true).pos
      ≠ (100, 0) := by
  have hr := moveTo_overshoot_run mvDrawsEx7 mvDrawsEx 100 (fun _ => 2)
    (0, 0) (100, 0) rfl (by norm_num) (by norm_num)
  rw [hr]
  refine ⟨rfl, ?_⟩
  show overshootLegEnd mvDrawsEx7 100 (0, 0) (100, 0) ≠ (100, 0)
  rw [overshootLegEnd_ex]
  decide

/-- C8 (amended): for a start/target pair closer than 5 units,
`move_to` returns immediately: no trajectory is generated, no sample is
emitted, the pointer stays put, and no error occurs. -/
theorem c8_short_distance_amended (r r2 : MoveDraws) (dist : ℚ)
    (dist2 : ℤ × ℤ → ℚ) (cur target : ℤ × ℤ) (allowOvershoot : Bool)
    (h : dist < 5) :
    moveTo r r2 dist dist2 cur target allowOvershoot = ⟨[], cur, 0⟩ := by
  simp [moveTo, h]

/-- C8 witness: the short-move early return evaluated at distance 3. -/
theorem c8_short_distance_witness :
    ((3 : ℚ) < 5)
  ∧ moveTo mvDrawsEx mvDrawsEx 3 (fun _ => 0) (0, 0) (3, 0) true
      = ⟨[], (0, 0), 0⟩ :=
  ⟨by norm_num,
   c8_short_distance_amended mvDrawsEx mvDrawsEx 3 (fun _ => 0) (0, 0)
     (3, 0) true (by norm_num)⟩

/-- C8 counterexample: at distance 3 the move emits zero samples —
not the single-sample path the claim describes. -/
theorem c8_counterexample :
    ((moveTo mvDrawsEx mvDrawsEx 3 (fun _ => 0) (0, 0) (3, 0) true).emitted).length
      ≠ 1 := by
  have h : moveTo mvDrawsEx mvDrawsEx 3 (fun _ => 0) (0, 0) (3, 0) true
      = ⟨[], (0, 0), 0⟩ := by
    simp [moveTo, show (3 : ℚ) < 5 by norm_num]
  rw [h]
  decide

/-- C3 (amended): the remainder-corrected pre-jitter step amounts sum
exactly to the requested amount, but each emitted wheel delta
additionally carries the per-step `randint(-3, 3)` jitter and an
optional inertia event, so the emitted deltas sum to
`amount + Σ jitter + inertia`. -/
theorem c3_scroll_sum_amended (r : ScrollDraws) (a : ℤ) (h1 : 1 ≤ r.steps) :
    (scrollStepAmounts r a).sum = a
  ∧ (scroll r ScrollDirection.down (some a) true).sum
      = a + ((List.range r.steps).map (fun i => r.jitter i)).sum
        + (if r.inertiaRoll then
            r.inertiaAmount * (if 0 < a then 1 else -1)
          else 0) :=
  ⟨scrollStepAmounts_sum r a h1, scroll_down_sum r a h1⟩

/-- C3 witness: the scroll sums evaluated at amount 200 with the
8-step example draws. -/
theorem c3_scroll_sum_witness :
    1 ≤ scrollDrawsEx.steps
  ∧ ((scrollStepAmounts scrollDrawsEx 200).sum = 200
    ∧ (scroll scrollDrawsEx ScrollDirection.down (some 200) true).sum
        = 200 + ((List.range scrollDrawsEx.steps).map
            (fun i => scrollDrawsEx.jitter i)).sum
          + (if scrollDrawsEx.inertiaRoll then
              scrollDrawsEx.inertiaAmount * (if 0 < (200 : ℤ) then 1 else -1)
            else 0)) :=
  ⟨by norm_num [scrollDrawsEx],
   c3_scroll_sum_amended scrollDrawsEx 200 (by norm_num [scrollDrawsEx])⟩

/-- C3 counterexample: with every jitter draw at `+3` (attainable from
`randint(-3, 3)`) and no inertia, `scroll('down', 200)` emits deltas
summing to 224, not 200. -/
theorem c3_counterexample :
    (scroll scrollDrawsEx ScrollDirection.down (some 200) true).sum
      ≠ 200 := by
  rw [scroll_down_sum scrollDrawsEx 200 (by norm_num [scrollDrawsEx])]
  have hj : ((List.range scrollDrawsEx.steps).map
      (fun i => scrollDrawsEx.jitter i)).sum = 24 := by
    decide
  have hroll : scrollDrawsEx.inertiaRoll = false := rfl
  rw [hj, hroll]
  norm_num

end SMM
